import Mathlib

/-!
Verification development for the Yad2-Haifa-Monitor snapshot-diff-notify
pipeline.  The definitions below are a shallow embedding of the store and
pipeline operations of `yad2_database.py`, `smart_yad2_sampler.py` and
`yad2_notification_manager.py`: SQLite rows become structure values, the
properties table becomes a list of rows keyed by the primary-key `id`
column, timestamps become natural numbers (seconds), and Python
truthiness of nullable columns is made explicit on `Option` values.
-/

set_option linter.unusedVariables false

namespace Yad2

/-- One second-granularity day, for the one-day SQL window used by `save_properties`. -/
def oneDay : Nat := 86400

/-- One hour in seconds, for the hours-based SQL windows. -/
def oneHour : Nat := 3600

/-- An incoming formatted property record (a Python dict as produced by
`format_property_for_database` and consumed by `save_properties`); every
field is read with `dict.get`, hence nullable. -/
structure InRecord where
  id : Option String
  price : Option Int
  address : Option String
  rooms : Option Rat
  size_sqm : Option Int
  floor : Option String
  property_type : Option String
  condition : Option String
  url : Option String
  image_url : Option String
deriving DecidableEq, Repr

/-- A row of the `properties` table (schema in `_create_tables`).  The
`raw_data` column stores the JSON dump of the incoming record; we keep the
record itself. -/
structure PropRow where
  id : String
  price : Option Int
  address : Option String
  rooms : Option Rat
  size_sqm : Option Int
  floor : Option String
  property_type : Option String
  condition_text : Option String
  url : Option String
  image_url : Option String
  first_seen : Nat
  last_seen : Nat
  raw_data : InRecord
  is_notified : Bool
deriving DecidableEq, Repr

/-- An entry of the `price_changes` list returned by `save_properties`. -/
structure PriceChange where
  id : String
  address : Option String
  old_price : Int
  new_price : Int
  price_diff : Int
  change_time : Nat
deriving DecidableEq, Repr

/-- An entry of the `removed_properties` list built by `save_properties`. -/
structure RemovedEntry where
  id : String
  address : Option String
  price : Option Int
  removed_time : Nat
deriving DecidableEq, Repr

/-- The statistics dictionary returned by `Yad2Database.save_properties`. -/
structure SaveStats where
  new : Nat
  updated : Nat
  total : Nat
  price_changes : List PriceChange
  removed_properties : List RemovedEntry
deriving DecidableEq, Repr

/-- Python truthiness of the nullable `id` field: `None` and the empty
string are falsy. -/
def idTruthy (o : Option String) : Bool :=
  match o with
  | none => false
  | some s => decide (s ≠ "")

/-- The set comprehension in `save_properties` collecting the truthy ids
of the incoming batch. -/
def currentPropertyIds (props : List InRecord) : List String :=
  props.filterMap fun p =>
    match p.id with
    | none => none
    | some s => if s = "" then none else some s

/-- The SQL condition selecting rows last seen within one day of now. -/
def withinOneDay (lastSeen now : Nat) : Bool :=
  decide (now < lastSeen + oneDay)

/-- Whether a stored row gets the removed treatment in `save_properties`:
seen within the last day but absent from the incoming batch. -/
def removedCandidate (currentIds : List String) (now : Nat) (r : PropRow) : Bool :=
  withinOneDay r.last_seen now && !(currentIds.contains r.id)

/-- First phase of `save_properties`: rows recently seen but missing from
the incoming batch have `last_seen` refreshed to the current time. -/
def refreshRemoved (tbl : List PropRow) (currentIds : List String) (now : Nat) :
    List PropRow :=
  tbl.map fun r =>
    if removedCandidate currentIds now r then { r with last_seen := now } else r

/-- The `removed_properties` entries appended during the first phase of
`save_properties`, in table order. -/
def removedEntries (tbl : List PropRow) (currentIds : List String) (now : Nat) :
    List RemovedEntry :=
  (tbl.filter (removedCandidate currentIds now)).map fun r =>
    ⟨r.id, r.address, r.price, now⟩

/-- The UPDATE statement of `save_properties`: every mutable column is
overwritten from the incoming record, `last_seen` is set to now,
while `id`, `first_seen` and `is_notified` are untouched. -/
def updateRow (p : InRecord) (now : Nat) (r : PropRow) : PropRow :=
  { r with
    price := p.price
    address := p.address
    rooms := p.rooms
    size_sqm := p.size_sqm
    floor := p.floor
    property_type := p.property_type
    condition_text := p.condition
    url := p.url
    image_url := p.image_url
    last_seen := now
    raw_data := p }

/-- The INSERT statement of `save_properties`; `is_notified` takes the
schema default FALSE. -/
def insertRow (pid : String) (p : InRecord) (now : Nat) : PropRow :=
  { id := pid
    price := p.price
    address := p.address
    rooms := p.rooms
    size_sqm := p.size_sqm
    floor := p.floor
    property_type := p.property_type
    condition_text := p.condition
    url := p.url
    image_url := p.image_url
    first_seen := now
    last_seen := now
    raw_data := p
    is_notified := false }

/-- Accumulated state of the per-record loop of `save_properties`. -/
structure LoopState where
  table : List PropRow
  newCount : Nat
  updatedCount : Nat
  changes : List PriceChange
deriving DecidableEq, Repr

/-- The price-change entries appended for an existing row: exactly one
entry when both the stored and the incoming price are truthy (non-null
and non-zero) and differ, none otherwise
(`if old_price and new_price and old_price != new_price`). -/
def priceChangeEntries (pid : String) (ex : PropRow) (p : InRecord) (now : Nat) :
    List PriceChange :=
  match ex.price, p.price with
  | some oldP, some newP =>
      if oldP ≠ 0 ∧ newP ≠ 0 ∧ oldP ≠ newP then
        [⟨pid, p.address, oldP, newP, newP - oldP, now⟩]
      else []
  | _, _ => []

/-- The UPDATE applied to the table: every row matching the primary key
is overwritten. -/
def updateTable (tbl : List PropRow) (pid : String) (p : InRecord) (now : Nat) :
    List PropRow :=
  tbl.map fun r => if r.id == pid then updateRow p now r else r

/-- One iteration of the per-record loop of `save_properties`: a falsy id
is skipped; an existing row yields the conditional price-change entry and
an update; an absent row yields an insert. -/
def processOne (now : Nat) (st : LoopState) (p : InRecord) : LoopState :=
  match p.id with
  | none => st
  | some pid =>
    if pid = "" then st
    else
      match st.table.find? (fun r => r.id == pid) with
      | some ex =>
          { table := updateTable st.table pid p now
            newCount := st.newCount
            updatedCount := st.updatedCount + 1
            changes := st.changes ++ priceChangeEntries pid ex p now }
      | none =>
          { table := st.table ++ [insertRow pid p now]
            newCount := st.newCount + 1
            updatedCount := st.updatedCount
            changes := st.changes }

/-- Per-identity view of the update loop: the row tracked for one primary
key together with the price-change entries accumulated for it.  Records
for other identities do not affect this view. -/
def pidStep (now : Nat) (pid : String) (acc : Option PropRow × List PriceChange)
    (p : InRecord) : Option PropRow × List PriceChange :=
  match acc.1 with
  | some ex => (some (updateRow p now ex), acc.2 ++ priceChangeEntries pid ex p now)
  | none => (some (insertRow pid p now), acc.2)

/-- Shallow embedding of `Yad2Database.save_properties`: the removed-rows
phase over rows seen within the last day, then the per-record loop, and
the returned statistics dictionary. -/
def save_properties (tbl : List PropRow) (props : List InRecord) (now : Nat) :
    SaveStats × List PropRow :=
  let ids := currentPropertyIds props
  let tbl1 := refreshRemoved tbl ids now
  let removed := removedEntries tbl ids now
  let final := props.foldl (processOne now) ⟨tbl1, 0, 0, []⟩
  (⟨final.newCount, final.updatedCount, props.length, final.changes, removed⟩,
   final.table)

/-- The ORDER BY relation of `get_new_properties_for_notification`:
`first_seen DESC`. -/
def notifyOrder (a b : PropRow) : Prop := b.first_seen ≤ a.first_seen

instance : DecidableRel notifyOrder := fun a b => Nat.decLe _ _

instance : IsTotal PropRow notifyOrder := ⟨fun a b => Nat.le_total b.first_seen a.first_seen⟩

instance : IsTrans PropRow notifyOrder := ⟨fun a b c h1 h2 => le_trans h2 h1⟩

/-- Shallow embedding of `get_new_properties_for_notification`:
`SELECT * FROM properties WHERE is_notified = FALSE ORDER BY first_seen DESC`. -/
def get_new_properties_for_notification (tbl : List PropRow) : List PropRow :=
  List.insertionSort notifyOrder (tbl.filter fun r => r.is_notified == false)

/-- One UPDATE of `mark_properties_as_notified`:
`UPDATE properties SET is_notified = TRUE WHERE id = ?`. -/
def markOne (tbl : List PropRow) (pid : String) : List PropRow :=
  tbl.map fun r => if r.id == pid then { r with is_notified := true } else r

/-- Shallow embedding of `Yad2Database.mark_properties_as_notified`. -/
def mark_properties_as_notified (tbl : List PropRow) (ids : List String) :
    List PropRow :=
  ids.foldl markOne tbl

/-- The SQL condition selecting rows last seen more than `days` days ago. -/
def staleAfterDays (days now : Nat) (r : PropRow) : Bool :=
  decide (r.last_seen + days * oneDay < now)

/-- Shallow embedding of `Yad2Database.cleanup_old_properties`: DELETEs
every row whose `last_seen` is older than `days` days and returns the
remaining table together with the deleted row count (`cursor.rowcount`). -/
def cleanup_old_properties (tbl : List PropRow) (days : Nat) (now : Nat) :
    List PropRow × Nat :=
  ((tbl.filter fun r => !staleAfterDays days now r), tbl.countP (staleAfterDays days now))

/-- The SQL condition selecting rows last seen more than `hours` hours ago. -/
def staleAfterHours (hours now : Nat) (r : PropRow) : Bool :=
  decide (r.last_seen + hours * oneHour < now)

/-- The dictionaries returned by `remove_sold_properties`, one per
deleted row. -/
structure RemovedBrief where
  id : String
  address : Option String
  price : Option Int
deriving DecidableEq, Repr

/-- Shallow embedding of `Yad2Database.remove_sold_properties`: DELETEs
every row not seen within `hours` hours and returns the remaining table
together with the list describing the deleted rows. -/
def remove_sold_properties (tbl : List PropRow) (hours : Nat) (now : Nat) :
    List PropRow × List RemovedBrief :=
  ((tbl.filter fun r => !staleAfterHours hours now r),
   (tbl.filter (staleAfterHours hours now)).map fun r => ⟨r.id, r.address, r.price⟩)

/-- A row of the `monitoring_runs` table. -/
structure RunRow where
  properties_found : Nat
  new_properties : Nat
  success : Bool
  error_message : Option String
  api_response_hash : Option String
deriving DecidableEq, Repr

/-- Database state shared by the sampler: the `properties` table and the
append-only `monitoring_runs` table. -/
structure DB where
  props : List PropRow
  runs : List RunRow
deriving DecidableEq, Repr

/-- Shallow embedding of `Yad2Database.log_monitoring_run`: append-only
INSERT into `monitoring_runs`. -/
def log_monitoring_run (db : DB) (found newProps : Nat) (success : Bool)
    (errorMessage apiResponseHash : Option String) : DB :=
  { db with runs := db.runs ++ [⟨found, newProps, success, errorMessage, apiResponseHash⟩] }

/-- Terminal outcome of the HTTP fetch in `fetch_and_store_properties`.
The success case carries the response hash and the already
extracted-and-formatted records (extraction and per-record formatting are
total and out of the core scope); the failure cases are the status-code
branches and the exception handlers of the source. -/
inductive FetchOutcome where
  | blocked403
  | rateLimited429
  | httpError (status : Nat)
  | networkError
  | jsonParseError
  | ok (responseHash : String) (formatted : List InRecord)
deriving DecidableEq, Repr

/-- The error message set on each failure path of
`fetch_and_store_properties` (`None` on the success path). -/
def failMessage : FetchOutcome → Option String
  | .blocked403 =>
      some "Access forbidden - Yad2 anti-bot protection triggered. Try again later."
  | .rateLimited429 =>
      some "Rate limited by Yad2. Waiting longer between requests."
  | .httpError status =>
      some ("API request failed: HTTP error " ++ toString status)
  | .networkError =>
      some "API request failed: connection error or timeout"
  | .jsonParseError =>
      some "Failed to parse JSON response"
  | .ok _ _ => none

/-- Whether the outcome is one of the transient upstream failures
(anti-bot block, rate limit, non-200 status, transport failure,
unparseable body). -/
def isTransientFailure : FetchOutcome → Bool
  | .ok _ _ => false
  | _ => true

/-- Result tuple of `fetch_and_store_properties`; `soldRemoved` is the
list returned by `remove_sold_properties`, which the source writes over
the `removed_properties` stats entry when non-empty. -/
structure FetchResult where
  success : Bool
  stats : SaveStats
  soldRemoved : List RemovedBrief
  error_message : Option String
  db : DB
deriving DecidableEq, Repr

/-- The zero statistics dictionary returned on a failed fetch. -/
def emptyStats : SaveStats := ⟨0, 0, 0, [], []⟩

/-- Shallow embedding of `SmartYad2APISampler.fetch_and_store_properties`.
On a transient failure the branch falls through (or the exception handler
runs) to the failed-run INSERT and returns failure without touching the
properties table.  On success, records whose formatted id is the
placeholder string are dropped, the batch is saved, a successful run is
logged, and the sold sweep over 24 hours runs. -/
def fetch_and_store_properties (db : DB) (outcome : FetchOutcome) (now : Nat) :
    FetchResult :=
  match outcome with
  | .ok responseHash formatted =>
      if formatted.isEmpty then
        let msg : String := "No properties found in API response"
        ⟨false, emptyStats, [], some msg,
         log_monitoring_run db 0 0 false (some msg) none⟩
      else
        let fp := formatted.filter fun p => !(p.id == some "N/A")
        let saved := save_properties db.props fp now
        let db1 : DB := ⟨saved.2, db.runs⟩
        let db2 := log_monitoring_run db1 fp.length saved.1.new true none (some responseHash)
        let sold := remove_sold_properties db2.props 24 now
        let db3 : DB := ⟨sold.1, db2.runs⟩
        ⟨true, saved.1, sold.2, none, db3⟩
  | o =>
      ⟨false, emptyStats, [], failMessage o,
       log_monitoring_run db 0 0 false (failMessage o) none⟩

/-- Result dictionary of the notification senders, holding the email
and sms delivery flags. -/
structure NotifResults where
  email : Bool
  sms : Bool
deriving DecidableEq, Repr

/-- Outcome of `send_removed_properties_notification`: the result
dictionary together with whether an email send was attempted. -/
structure RemovedNotifOutcome where
  results : NotifResults
  emailAttempted : Bool
deriving DecidableEq, Repr

/-- Shallow embedding of
`Yad2NotificationManager.send_removed_properties_notification`.
`emailEnabled` models `self.config.is_email_enabled()` and
`emailSendResult` the return value of `self.send_email(...)`.  Fewer than
five removed properties suppress the digest entirely; SMS is never sent
by this method. -/
def send_removed_properties_notification (emailEnabled emailSendResult : Bool)
    (removed : List RemovedBrief) : RemovedNotifOutcome :=
  if removed.isEmpty || removed.length < 5 then ⟨⟨false, false⟩, false⟩
  else if emailEnabled then ⟨⟨emailSendResult, false⟩, true⟩
  else ⟨⟨false, false⟩, false⟩

/-- Record constructor used by concrete test states: only the id, price
and address are populated, the rest defaults to null. -/
def mkRecord (id : Option String) (price : Option Int) (address : Option String) :
    InRecord :=
  ⟨id, price, address, none, none, none, none, none, none, none⟩

/-- Row constructor used by concrete test states. -/
def mkRow (id : String) (price : Option Int) (firstSeen lastSeen : Nat)
    (notified : Bool) : PropRow :=
  { id := id
    price := price
    address := some ("addr " ++ id)
    rooms := none
    size_sqm := none
    floor := none
    property_type := none
    condition_text := none
    url := none
    image_url := none
    first_seen := firstSeen
    last_seen := lastSeen
    raw_data := mkRecord (some id) price none
    is_notified := notified }

/-- First fetch of the end-to-end scenario: listings x1 at 3000 and x2
at 4500. -/
def scenarioBatchA : List InRecord :=
  [mkRecord (some "x1") (some 3000) (some "Address 1"),
   mkRecord (some "x2") (some 4500) (some "Address 2")]

/-- Result of upserting the first scenario batch into an empty store. -/
def scenarioS1 : SaveStats × List PropRow :=
  save_properties [] scenarioBatchA 1000000

/-- Notification feed after the first scenario upsert. -/
def scenarioFeed1 : List PropRow :=
  get_new_properties_for_notification scenarioS1.2

/-- Store after both scenario listings are marked notified. -/
def scenarioTblB : List PropRow :=
  mark_properties_as_notified scenarioS1.2 ["x1", "x2"]

/-- Result of the follow-up scenario upsert of x1 at price 2800. -/
def scenarioS2 : SaveStats × List PropRow :=
  save_properties scenarioTblB
    [mkRecord (some "x1") (some 2800) (some "Address 1")] 1000600

end Yad2

namespace Yad2

lemma contains_true_iff {l : List String} {a : String} :
    l.contains a = true ↔ a ∈ l := by
  simp [List.contains]

lemma mem_currentPropertyIds {props : List InRecord} {pid : String} :
    pid ∈ currentPropertyIds props ↔ ∃ p ∈ props, p.id = some pid ∧ pid ≠ "" := by
  simp only [currentPropertyIds, List.mem_filterMap]
  constructor
  · rintro ⟨p, hp, hf⟩
    rcases hid : p.id with _ | s
    · simp only [hid] at hf
      exact Option.noConfusion hf
    · simp only [hid] at hf
      by_cases hs : s = ""
      · rw [if_pos hs] at hf; cases hf
      · rw [if_neg hs] at hf
        injection hf with hf
        exact ⟨p, hp, by rw [hid, hf], fun h => hs (hf.trans h)⟩
  · rintro ⟨p, hp, hid, hne⟩
    refine ⟨p, hp, ?_⟩
    simp only [hid]
    rw [if_neg hne]

lemma find?_map_id_fixed (f : PropRow → PropRow) (l : List PropRow) (pid : String)
    (hf : ∀ r, (f r).id = r.id) (hfix : ∀ r, r.id = pid → f r = r) :
    (l.map f).find? (fun r => r.id == pid) = l.find? (fun r => r.id == pid) := by
  induction l with
  | nil => rfl
  | cons a t ih =>
      rw [List.map_cons]
      by_cases h : a.id = pid
      · rw [List.find?_cons_of_pos _ (by simp [hf, h]),
            List.find?_cons_of_pos _ (by simp [h]), hfix a h]
      · rw [List.find?_cons_of_neg _ (by simp [hf, h]),
            List.find?_cons_of_neg _ (by simp [h]), ih]

lemma refreshRemoved_find?_of_mem (tbl : List PropRow) (ids : List String) (now : Nat)
    (pid : String) (hmem : pid ∈ ids) :
    (refreshRemoved tbl ids now).find? (fun r => r.id == pid)
      = tbl.find? (fun r => r.id == pid) := by
  unfold refreshRemoved
  apply find?_map_id_fixed
  · intro r; by_cases h : removedCandidate ids now r = true <;> simp [h]
  · intro r hr
    have hc : ids.contains r.id = true := contains_true_iff.2 (hr ▸ hmem)
    have hcand : removedCandidate ids now r = false := by
      simp [removedCandidate]
      intro h
      exact contains_true_iff.1 hc
    simp [hcand]

lemma processOne_find?_of_skip (now : Nat) (st : LoopState) (p : InRecord) (pid : String)
    (hp : ¬ (p.id = some pid ∧ pid ≠ "")) :
    (processOne now st p).table.find? (fun r => r.id == pid)
        = st.table.find? (fun r => r.id == pid) ∧
    (processOne now st p).changes.filter (fun c => c.id == pid)
        = st.changes.filter (fun c => c.id == pid) := by
  rcases hq : p.id with _ | q
  · simp [processOne, hq]
  · by_cases hq0 : q = ""
    · simp [processOne, hq, hq0]
    · have hqpid : q ≠ pid := by
        intro h
        exact hp ⟨by rw [hq, h], by rw [← h]; exact hq0⟩
      cases hfind : st.table.find? (fun r => r.id == q) with
      | some ex =>
          simp only [processOne, hq, if_neg hq0, hfind]
          constructor
          · unfold updateTable
            apply find?_map_id_fixed
            · intro r; by_cases h : (r.id == q) = true <;> simp [h, updateRow]
            · intro r hr
              have : (r.id == q) = false := by
                simp [hr]; exact fun h => hqpid h.symm
              simp [this]
          · rw [List.filter_append]
            have hentry : (priceChangeEntries q ex p now).filter (fun c => c.id == pid) = [] := by
              unfold priceChangeEntries
              rcases ex.price with _ | op
              · simp
              · rcases p.price with _ | np
                · simp
                · by_cases hc : op ≠ 0 ∧ np ≠ 0 ∧ op ≠ np
                  · simp [hc, hqpid]
                  · simp [hc]
            rw [hentry, List.append_nil]
      | none =>
          simp only [processOne, hq, if_neg hq0, hfind]
          refine ⟨?_, by simp⟩
          rw [List.find?_append]
          have : ([insertRow q p now]).find? (fun r => r.id == pid) = none := by
            simp [insertRow, hqpid]
          rw [this, Option.or_none]

lemma foldl_find?_of_skip (now : Nat) (props : List InRecord) (st : LoopState) (pid : String)
    (h : ∀ p ∈ props, ¬ (p.id = some pid ∧ pid ≠ "")) :
    ((props.foldl (processOne now) st).table.find? (fun r => r.id == pid)
        = st.table.find? (fun r => r.id == pid)) ∧
    ((props.foldl (processOne now) st).changes.filter (fun c => c.id == pid)
        = st.changes.filter (fun c => c.id == pid)) := by
  induction props generalizing st with
  | nil => exact ⟨rfl, rfl⟩
  | cons p t ih =>
      have h1 := processOne_find?_of_skip now st p pid (h p (by simp))
      have h2 := ih (processOne now st p) (fun q hq => h q (by simp [hq]))
      exact ⟨h2.1.trans h1.1, h2.2.trans h1.2⟩

end Yad2

namespace Yad2

lemma processOne_mem_of_skip (now : Nat) (st : LoopState) (p : InRecord) (r : PropRow)
    (hr : r ∈ st.table) (hp : ¬ (p.id = some r.id ∧ r.id ≠ "")) :
    r ∈ (processOne now st p).table := by
  rcases hq : p.id with _ | q
  · simpa [processOne, hq] using hr
  · by_cases hq0 : q = ""
    · simpa [processOne, hq, hq0] using hr
    · have hqr : q ≠ r.id := by
        intro h
        exact hp ⟨by rw [hq, h], by rw [← h]; exact hq0⟩
      cases hfind : st.table.find? (fun x => x.id == q) with
      | some ex =>
          simp only [processOne, hq, if_neg hq0, hfind]
          unfold updateTable
          have heq : (if r.id == q then updateRow p now r else r) = r := by
            have : (r.id == q) = false := by
              simp
              exact fun h => hqr h.symm
            simp [this]
          exact heq ▸ List.mem_map_of_mem _ hr
      | none =>
          simp only [processOne, hq, if_neg hq0, hfind]
          exact List.mem_append_left _ hr

lemma foldl_mem_of_skip (now : Nat) (props : List InRecord) (st : LoopState) (r : PropRow)
    (hr : r ∈ st.table) (h : ∀ p ∈ props, ¬ (p.id = some r.id ∧ r.id ≠ "")) :
    r ∈ (props.foldl (processOne now) st).table := by
  induction props generalizing st with
  | nil => exact hr
  | cons p t ih =>
      exact ih (processOne now st p)
        (processOne_mem_of_skip now st p r hr (h p (by simp)))
        (fun q hq => h q (by simp [hq]))

lemma processOne_flag (now : Nat) (st : LoopState) (p : InRecord) (r : PropRow)
    (hr : r ∈ st.table) :
    ∃ q ∈ (processOne now st p).table,
      q.id = r.id ∧ q.is_notified = r.is_notified ∧ q.first_seen = r.first_seen := by
  rcases hq : p.id with _ | pid
  · exact ⟨r, by simpa [processOne, hq] using hr, rfl, rfl, rfl⟩
  · by_cases hq0 : pid = ""
    · exact ⟨r, by simpa [processOne, hq, hq0] using hr, rfl, rfl, rfl⟩
    · cases hfind : st.table.find? (fun x => x.id == pid) with
      | some ex =>
          refine ⟨if r.id == pid then updateRow p now r else r, ?_, ?_, ?_, ?_⟩
          · simp only [processOne, hq, if_neg hq0, hfind]
            unfold updateTable
            exact List.mem_map_of_mem _ hr
          · by_cases h : (r.id == pid) = true <;> simp [h, updateRow]
          · by_cases h : (r.id == pid) = true <;> simp [h, updateRow]
          · by_cases h : (r.id == pid) = true <;> simp [h, updateRow]
      | none =>
          refine ⟨r, ?_, rfl, rfl, rfl⟩
          simp only [processOne, hq, if_neg hq0, hfind]
          exact List.mem_append_left _ hr

lemma foldl_flag (now : Nat) (props : List InRecord) (st : LoopState) (r : PropRow)
    (hr : r ∈ st.table) :
    ∃ q ∈ (props.foldl (processOne now) st).table,
      q.id = r.id ∧ q.is_notified = r.is_notified ∧ q.first_seen = r.first_seen := by
  induction props generalizing st r with
  | nil => exact ⟨r, hr, rfl, rfl, rfl⟩
  | cons p t ih =>
      obtain ⟨q, hq, hid, hflag, hfs⟩ := processOne_flag now st p r hr
      obtain ⟨q2, hq2, hid2, hflag2, hfs2⟩ := ih (processOne now st p) q hq
      exact ⟨q2, hq2, hid2.trans hid, hflag2.trans hflag, hfs2.trans hfs⟩

lemma refreshRemoved_flag (tbl : List PropRow) (ids : List String) (now : Nat)
    (r : PropRow) (hr : r ∈ tbl) :
    ∃ q ∈ refreshRemoved tbl ids now,
      q.id = r.id ∧ q.is_notified = r.is_notified ∧ q.first_seen = r.first_seen := by
  refine ⟨if removedCandidate ids now r then { r with last_seen := now } else r, ?_, ?_, ?_, ?_⟩
  · exact List.mem_map_of_mem _ hr
  · by_cases h : removedCandidate ids now r = true <;> simp [h]
  · by_cases h : removedCandidate ids now r = true <;> simp [h]
  · by_cases h : removedCandidate ids now r = true <;> simp [h]

lemma markOne_sets (tbl : List PropRow) (a : String) :
    ∀ r ∈ markOne tbl a, r.id = a → r.is_notified = true := by
  intro r hr hid
  rcases List.mem_map.1 hr with ⟨q, hq, hfq⟩
  by_cases h : (q.id == a) = true
  · rw [if_pos h] at hfq
    rw [← hfq]
  · rw [if_neg (by simp [h])] at hfq
    subst hfq
    simp at h
    exact absurd hid h

lemma markOne_keeps (tbl : List PropRow) (a pid : String)
    (h : ∀ r ∈ tbl, r.id = pid → r.is_notified = true) :
    ∀ r ∈ markOne tbl a, r.id = pid → r.is_notified = true := by
  intro r hr hid
  rcases List.mem_map.1 hr with ⟨q, hq, hfq⟩
  by_cases hqa : (q.id == a) = true
  · rw [if_pos hqa] at hfq
    rw [← hfq]
  · rw [if_neg (by simp [hqa])] at hfq
    subst hfq
    exact h q hq hid

lemma mark_keeps_all (ids : List String) (tbl : List PropRow) (pid : String)
    (h : ∀ r ∈ tbl, r.id = pid → r.is_notified = true) :
    ∀ r ∈ mark_properties_as_notified tbl ids, r.id = pid → r.is_notified = true := by
  induction ids generalizing tbl with
  | nil => exact h
  | cons a t ih => exact ih (markOne tbl a) (markOne_keeps tbl a pid h)

lemma mark_sets_flag (ids : List String) (tbl : List PropRow) (pid : String)
    (hpid : pid ∈ ids) :
    ∀ r ∈ mark_properties_as_notified tbl ids, r.id = pid → r.is_notified = true := by
  induction ids generalizing tbl with
  | nil => cases hpid
  | cons a t ih =>
      rcases List.mem_cons.1 hpid with h | h
      · exact mark_keeps_all t (markOne tbl a) pid
          (h ▸ markOne_sets tbl a)
      · exact ih (markOne tbl a) h

lemma markOne_mem (tbl : List PropRow) (a : String) (r : PropRow) (hr : r ∈ tbl) :
    ∃ q ∈ markOne tbl a, q.id = r.id ∧ (r.is_notified = true → q.is_notified = true) := by
  refine ⟨if r.id == a then { r with is_notified := true } else r, List.mem_map_of_mem _ hr, ?_, ?_⟩
  · by_cases h : (r.id == a) = true <;> simp [h]
  · by_cases h : (r.id == a) = true <;> simp [h]

lemma mark_mem (ids : List String) (tbl : List PropRow) (r : PropRow) (hr : r ∈ tbl) :
    ∃ q ∈ mark_properties_as_notified tbl ids,
      q.id = r.id ∧ (r.is_notified = true → q.is_notified = true) := by
  induction ids generalizing tbl r with
  | nil => exact ⟨r, hr, rfl, fun h => h⟩
  | cons a t ih =>
      obtain ⟨q, hq, hid, hflag⟩ := markOne_mem tbl a r hr
      obtain ⟨q2, hq2, hid2, hflag2⟩ := ih (markOne tbl a) q hq
      exact ⟨q2, hq2, hid2.trans hid, fun h => hflag2 (hflag h)⟩

lemma processOne_falsy (now : Nat) (st : LoopState) (p : InRecord)
    (hp : idTruthy p.id = false) : processOne now st p = st := by
  rcases hq : p.id with _ | q
  · simp [processOne, hq]
  · have : q = "" := by simpa [idTruthy, hq] using hp
    simp [processOne, hq, this]

lemma processOne_count_truthy (now : Nat) (st : LoopState) (p : InRecord)
    (hp : idTruthy p.id = true) :
    (processOne now st p).newCount + (processOne now st p).updatedCount
      = st.newCount + st.updatedCount + 1 := by
  rcases hq : p.id with _ | q
  · simp [idTruthy, hq] at hp
  · have hq0 : q ≠ "" := by simpa [idTruthy, hq] using hp
    cases hfind : st.table.find? (fun r => r.id == q) with
    | some ex =>
        simp only [processOne, hq, if_neg hq0, hfind]
        omega
    | none =>
        simp only [processOne, hq, if_neg hq0, hfind]
        omega

lemma foldl_count (now : Nat) (props : List InRecord) (st : LoopState) :
    (props.foldl (processOne now) st).newCount
        + (props.foldl (processOne now) st).updatedCount
      = st.newCount + st.updatedCount
        + (props.filter fun p => idTruthy p.id).length := by
  induction props generalizing st with
  | nil => simp
  | cons p t ih =>
      by_cases hp : idTruthy p.id = true
      · rw [List.foldl_cons, ih, processOne_count_truthy now st p hp]
        simp [List.filter_cons, hp]
        omega
      · rw [List.foldl_cons,
            processOne_falsy now st p (by simpa using hp), ih]
        simp [List.filter_cons, hp]

lemma foldl_filter_truthy (now : Nat) (props : List InRecord) (st : LoopState) :
    props.foldl (processOne now) st
      = (props.filter fun p => idTruthy p.id).foldl (processOne now) st := by
  induction props generalizing st with
  | nil => rfl
  | cons p t ih =>
      by_cases hp : idTruthy p.id = true
      · rw [show (p :: t).filter (fun x => idTruthy x.id)
              = p :: t.filter (fun x => idTruthy x.id) by simp [List.filter_cons, hp],
            List.foldl_cons, List.foldl_cons]
        exact ih (processOne now st p)
      · rw [show (p :: t).filter (fun x => idTruthy x.id)
              = t.filter (fun x => idTruthy x.id) by simp [List.filter_cons, hp],
            List.foldl_cons, processOne_falsy now st p (by simpa using hp)]
        exact ih st

lemma currentPropertyIds_filter_truthy (props : List InRecord) :
    currentPropertyIds (props.filter fun p => idTruthy p.id)
      = currentPropertyIds props := by
  induction props with
  | nil => rfl
  | cons p t ih =>
      rcases hq : p.id with _ | q
      · rw [List.filter_cons_of_neg (by simp [idTruthy, hq])]
        unfold currentPropertyIds
        rw [List.filterMap_cons_none (by simp [hq])]
        exact ih
      · by_cases hq0 : q = ""
        · rw [List.filter_cons_of_neg (by simp [idTruthy, hq, hq0])]
          unfold currentPropertyIds
          rw [List.filterMap_cons_none (by simp [hq, hq0])]
          exact ih
        · rw [List.filter_cons_of_pos (by simp [idTruthy, hq, hq0])]
          unfold currentPropertyIds
          rw [List.filterMap_cons_some (by simp [hq, hq0] : _ = some q),
              List.filterMap_cons_some (by simp [hq, hq0] : _ = some q)]
          unfold currentPropertyIds at ih
          rw [ih]

end Yad2

namespace Yad2

lemma mem_new_unnotified_iff (tbl : List PropRow) (r : PropRow) :
    r ∈ get_new_properties_for_notification tbl ↔ r ∈ tbl ∧ r.is_notified = false := by
  unfold get_new_properties_for_notification
  rw [List.mem_insertionSort, List.mem_filter]
  simp

lemma sorted_new_unnotified (tbl : List PropRow) :
    (get_new_properties_for_notification tbl).Pairwise
      (fun a b => b.first_seen ≤ a.first_seen) :=
  List.sorted_insertionSort notifyOrder _

lemma length_filter_not_add_countP (p : PropRow → Bool) (l : List PropRow) :
    (l.filter fun r => !p r).length + l.countP p = l.length := by
  induction l with
  | nil => rfl
  | cons a t ih =>
      by_cases h : p a = true
      · simp only [List.filter_cons, List.countP_cons, h]
        simp
        omega
      · simp only [List.filter_cons, List.countP_cons, h]
        simp [h]
        omega

/-- C3: the notification feed returns exactly the stored rows whose
`is_notified` flag is false, ordered by `first_seen` descending, and a
property whose id was passed to `mark_properties_as_notified` no longer
appears in the feed afterwards (unless something resets the flag, which
reinsertion alone can do). -/
theorem new_unnotified_spec :
    (∀ (tbl : List PropRow) (r : PropRow),
        r ∈ get_new_properties_for_notification tbl ↔ r ∈ tbl ∧ r.is_notified = false) ∧
    (∀ tbl : List PropRow,
        (get_new_properties_for_notification tbl).Pairwise
          (fun a b => b.first_seen ≤ a.first_seen)) ∧
    (∀ (tbl : List PropRow) (ids : List String) (pid : String),
        pid ∈ ids →
        pid ∉ (get_new_properties_for_notification
            (mark_properties_as_notified tbl ids)).map (fun r => r.id)) := by
  refine ⟨mem_new_unnotified_iff, sorted_new_unnotified, ?_⟩
  intro tbl ids pid hpid hmem
  rcases List.mem_map.1 hmem with ⟨r, hr, hid⟩
  have h1 := (mem_new_unnotified_iff _ r).1 hr
  have h2 := mark_sets_flag ids tbl pid hpid r h1.1 hid
  rw [h1.2] at h2
  exact absurd h2 (by decide)

/-- C3 witness: a concrete marked property is absent from the feed. -/
theorem new_unnotified_spec_witness :
    ("x" ∈ ["x"]) ∧
    "x" ∉ (get_new_properties_for_notification
        (mark_properties_as_notified [mkRow "x" (some 100) 5 5 false] ["x"])).map
        (fun r => r.id) :=
  ⟨by decide,
   new_unnotified_spec.2.2 [mkRow "x" (some 100) 5 5 false] ["x"] "x" (by decide)⟩

/-- C4 counterexample: `cleanup_old_properties` DELETEs stale rows, so a
row present before the sweep is gone afterwards, refuting the claim that
no rows are deleted (there is no `is_active` column at all). -/
theorem cleanup_deletes_rows :
    mkRow "a" (some 3000) 10 10 false
        ∈ ([mkRow "a" (some 3000) 10 10 false] : List PropRow) ∧
    mkRow "a" (some 3000) 10 10 false
        ∉ (cleanup_old_properties [mkRow "a" (some 3000) 10 10 false] 30 (40 * oneDay)).1 := by
  decide

/-- C4 amended: `cleanup_old_properties` deletes exactly the rows whose
`last_seen` is older than `days` days (rather than marking them
inactive), keeps every other row, and returns the deleted count. -/
theorem cleanup_old_properties_spec (tbl : List PropRow) (days now : Nat) :
    (∀ r, r ∈ (cleanup_old_properties tbl days now).1 ↔
        r ∈ tbl ∧ ¬ (r.last_seen + days * oneDay < now)) ∧
    ((cleanup_old_properties tbl days now).1.length
        + (cleanup_old_properties tbl days now).2 = tbl.length) := by
  constructor
  · intro r
    unfold cleanup_old_properties
    rw [List.mem_filter]
    simp [staleAfterDays]
  · exact length_filter_not_add_countP (staleAfterDays days now) tbl

/-- C8: the staleness sweep is idempotent — a second run with the same
arguments leaves the table unchanged and deletes zero rows. -/
theorem cleanup_idempotent (tbl : List PropRow) (days now : Nat) :
    cleanup_old_properties (cleanup_old_properties tbl days now).1 days now
      = ((cleanup_old_properties tbl days now).1, 0) := by
  unfold cleanup_old_properties
  simp only [Prod.mk.injEq]
  constructor
  · rw [List.filter_filter]
    simp
  · rw [List.countP_eq_zero]
    intro a ha
    have h2 := (List.mem_filter.1 ha).2
    simp at h2 ⊢
    exact h2

/-- C6: every transient upstream failure (403 block, 429 rate limit,
other non-200 status, network error, unparseable JSON) returns failure,
leaves the properties table untouched, and appends exactly one
monitoring run row with success false and an error message. -/
theorem fetch_failure_frame (db : DB) (outcome : FetchOutcome) (now : Nat)
    (h : isTransientFailure outcome = true) :
    (fetch_and_store_properties db outcome now).success = false ∧
    (fetch_and_store_properties db outcome now).db.props = db.props ∧
    ∃ msg, (fetch_and_store_properties db outcome now).error_message = some msg ∧
      (fetch_and_store_properties db outcome now).db.runs
        = db.runs ++ [⟨0, 0, false, some msg, none⟩] := by
  cases outcome
  case ok hash formatted => simp [isTransientFailure] at h
  all_goals exact ⟨rfl, rfl, _, rfl, rfl⟩

/-- C6 witness: concrete network failure. -/
theorem fetch_failure_frame_witness :
    (isTransientFailure .networkError = true) ∧
    (fetch_and_store_properties ⟨[mkRow "a" (some 1) 2 3 false], []⟩ .networkError 0).success
      = false :=
  ⟨by decide,
   (fetch_failure_frame ⟨[mkRow "a" (some 1) 2 3 false], []⟩ .networkError 0 (by decide)).1⟩

/-- C7: fewer than five removed properties suppress the removed digest
entirely, and an email send is attempted exactly when the count meets the
threshold and email is enabled. -/
theorem removed_digest_threshold (emailEnabled emailSendResult : Bool)
    (removed : List RemovedBrief) :
    (removed.length < 5 →
      send_removed_properties_notification emailEnabled emailSendResult removed
        = ⟨⟨false, false⟩, false⟩) ∧
    ((send_removed_properties_notification emailEnabled emailSendResult removed).emailAttempted
          = true
        ↔ 5 ≤ removed.length ∧ emailEnabled = true) := by
  by_cases h5 : removed.length < 5
  · unfold send_removed_properties_notification
    rw [if_pos (by simp [h5])]
    refine ⟨fun _ => rfl, ?_⟩
    simp
    omega
  · have hne : removed.isEmpty = false := by
      cases hrem : removed with
      | nil => rw [hrem] at h5; simp at h5
      | cons a t => rfl
    unfold send_removed_properties_notification
    rw [if_neg (by simp [hne, h5])]
    by_cases hE : emailEnabled = true
    · rw [if_pos hE]
      refine ⟨fun h => absurd h h5, ?_⟩
      simp [hE]
      exact Nat.le_of_not_lt h5
    · rw [if_neg hE]
      refine ⟨fun h => absurd h h5, ?_⟩
      simp [hE]

/-- C7 witness: one removed property is below the threshold. -/
theorem removed_digest_threshold_witness :
    (([⟨"a", none, none⟩] : List RemovedBrief).length < 5) ∧
    send_removed_properties_notification true true [⟨"a", none, none⟩]
      = ⟨⟨false, false⟩, false⟩ :=
  ⟨by decide,
   (removed_digest_threshold true true [⟨"a", none, none⟩]).1 (by decide)⟩

end Yad2

namespace Yad2

/-- C2 counterexample: a price change is detected for an already-notified
property, yet `save_properties` leaves `is_notified` true; no pipeline
operation resets it. -/
theorem is_notified_not_reset_on_price_change :
    (save_properties [mkRow "a" (some 3000) 10 10 true]
        [mkRecord (some "a") (some 2500) (some "A")] 500).1.price_changes.length = 1 ∧
    ((save_properties [mkRow "a" (some 3000) 10 10 true]
        [mkRecord (some "a") (some 2500) (some "A")] 500).2.find?
          (fun r => r.id == "a")).map (fun r => r.is_notified) = some true := by
  decide

/-- C2 amended: `is_notified` is never reset to false. `save_properties`
and `mark_properties_as_notified` keep a true flag true on the surviving
row with the same id, and the deletion sweeps only remove rows, never
modify one. -/
theorem is_notified_never_reset_by_pipeline
    (tbl : List PropRow) (props : List InRecord) (ids : List String)
    (days hours now : Nat) (r : PropRow)
    (hmem : r ∈ tbl) (hflag : r.is_notified = true) :
    (∃ q ∈ (save_properties tbl props now).2, q.id = r.id ∧ q.is_notified = true) ∧
    (∃ q ∈ mark_properties_as_notified tbl ids, q.id = r.id ∧ q.is_notified = true) ∧
    (∀ q ∈ (cleanup_old_properties tbl days now).1, q ∈ tbl) ∧
    (∀ q ∈ (remove_sold_properties tbl hours now).1, q ∈ tbl) := by
  refine ⟨?_, ?_, ?_, ?_⟩
  · obtain ⟨q1, hq1, hid1, hflag1, _⟩ :=
      refreshRemoved_flag tbl (currentPropertyIds props) now r hmem
    obtain ⟨q2, hq2, hid2, hflag2, _⟩ :=
      foldl_flag now props ⟨refreshRemoved tbl (currentPropertyIds props) now, 0, 0, []⟩ q1 hq1
    exact ⟨q2, hq2, hid2.trans hid1, hflag2.trans (hflag1.trans hflag)⟩
  · obtain ⟨q, hq, hid, himp⟩ := mark_mem ids tbl r hmem
    exact ⟨q, hq, hid, himp hflag⟩
  · intro q hq
    exact List.mem_of_mem_filter hq
  · intro q hq
    exact List.mem_of_mem_filter hq

/-- C2 witness: concrete notified row survives an empty upsert with its
flag still true. -/
theorem is_notified_never_reset_by_pipeline_witness :
    (mkRow "b" (some 1) 2 3 true ∈ [mkRow "b" (some 1) 2 3 true]
        ∧ (mkRow "b" (some 1) 2 3 true).is_notified = true) ∧
    (∃ q ∈ (save_properties [mkRow "b" (some 1) 2 3 true] [] 0).2,
        q.id = (mkRow "b" (some 1) 2 3 true).id ∧ q.is_notified = true) :=
  ⟨⟨by decide, by decide⟩,
   (is_notified_never_reset_by_pipeline [mkRow "b" (some 1) 2 3 true] [] [] 0 0 0
      (mkRow "b" (some 1) 2 3 true) (by decide) (by decide)).1⟩

/-- C9: during `save_properties`, a stored row seen within the past day
whose id is absent from the incoming batch has `last_seen` refreshed to
the current time, and is reported in the removed list of the returned
statistics. -/
theorem absent_recent_refreshes_last_seen
    (tbl : List PropRow) (props : List InRecord) (now : Nat) (r : PropRow)
    (hmem : r ∈ tbl)
    (hrecent : now < r.last_seen + oneDay)
    (habsent : r.id ∉ currentPropertyIds props) :
    ({ r with last_seen := now } ∈ (save_properties tbl props now).2) ∧
    ((⟨r.id, r.address, r.price, now⟩ : RemovedEntry)
        ∈ (save_properties tbl props now).1.removed_properties) := by
  have hcont : (currentPropertyIds props).contains r.id = false := by
    cases hc : (currentPropertyIds props).contains r.id
    · rfl
    · exact absurd (contains_true_iff.1 hc) habsent
  have hcand : removedCandidate (currentPropertyIds props) now r = true := by
    simp [removedCandidate, withinOneDay, hrecent, hcont]
    exact habsent
  constructor
  · have h1 : ({ r with last_seen := now } : PropRow)
        ∈ refreshRemoved tbl (currentPropertyIds props) now := by
      unfold refreshRemoved
      refine List.mem_map.2 ⟨r, hmem, ?_⟩
      rw [if_pos hcand]
    have hskip : ∀ p ∈ props,
        ¬ (p.id = some ({ r with last_seen := now } : PropRow).id
            ∧ ({ r with last_seen := now } : PropRow).id ≠ "") := by
      intro p hp h
      obtain ⟨hpid, hne⟩ := h
      exact habsent (mem_currentPropertyIds.2 ⟨p, hp, hpid, hne⟩)
    exact foldl_mem_of_skip now props
      ⟨refreshRemoved tbl (currentPropertyIds props) now, 0, 0, []⟩ _ h1 hskip
  · show (⟨r.id, r.address, r.price, now⟩ : RemovedEntry)
        ∈ removedEntries tbl (currentPropertyIds props) now
    unfold removedEntries
    exact List.mem_map_of_mem _ (List.mem_filter.2 ⟨hmem, hcand⟩)

/-- C9 witness: a concrete absent-but-recent row gets its timestamp
refreshed. -/
theorem absent_recent_refreshes_last_seen_witness :
    (10 < (mkRow "a" (some 5) 1 1 false).last_seen + oneDay) ∧
    ({ mkRow "a" (some 5) 1 1 false with last_seen := 10 }
        ∈ (save_properties [mkRow "a" (some 5) 1 1 false] [] 10).2) :=
  ⟨by decide,
   (absent_recent_refreshes_last_seen [mkRow "a" (some 5) 1 1 false] [] 10
      (mkRow "a" (some 5) 1 1 false) (by decide) (by decide) (by decide)).1⟩

/-- C10: `save_properties` silently skips records with a falsy id: the
returned total is the full batch length, new plus updated counts exactly
the truthy-id records (hence is at most total), and the table and the
price-change list agree with processing only the truthy-id records. -/
theorem save_properties_skips_falsy_ids
    (tbl : List PropRow) (props : List InRecord) (now : Nat) :
    (save_properties tbl props now).1.total = props.length ∧
    (save_properties tbl props now).1.new + (save_properties tbl props now).1.updated
        = (props.filter fun p => idTruthy p.id).length ∧
    (save_properties tbl props now).2
        = (save_properties tbl (props.filter fun p => idTruthy p.id) now).2 ∧
    (save_properties tbl props now).1.price_changes
        = (save_properties tbl (props.filter fun p => idTruthy p.id) now).1.price_changes ∧
    (save_properties tbl props now).1.new + (save_properties tbl props now).1.updated
        ≤ (save_properties tbl props now).1.total := by
  refine ⟨rfl, ?_, ?_, ?_, ?_⟩
  · simp only [save_properties]
    rw [foldl_count]
    simp
  · simp only [save_properties]
    rw [currentPropertyIds_filter_truthy, ← foldl_filter_truthy]
  · simp only [save_properties]
    rw [currentPropertyIds_filter_truthy, ← foldl_filter_truthy]
  · simp only [save_properties]
    rw [foldl_count]
    simp
    exact List.length_filter_le _ _

end Yad2

namespace Yad2

/-- C5: the end-to-end scenario — empty store, upsert of x1 at 3000 and
x2 at 4500 yields new 2, updated 0, no price changes; both appear in the
notification feed; after marking both, the feed is empty; upserting x1
at 2800 yields new 0, updated 1 and exactly the price change 3000 to
2800. -/
theorem end_to_end_scenario :
    scenarioS1.1.new = 2 ∧ scenarioS1.1.updated = 0 ∧
    scenarioS1.1.price_changes = [] ∧
    "x1" ∈ scenarioFeed1.map (fun r => r.id) ∧
    "x2" ∈ scenarioFeed1.map (fun r => r.id) ∧
    scenarioFeed1.length = 2 ∧
    get_new_properties_for_notification scenarioTblB = [] ∧
    scenarioS2.1.new = 0 ∧ scenarioS2.1.updated = 1 ∧
    scenarioS2.1.price_changes.map (fun c => (c.old_price, c.new_price))
      = [(3000, 2800)] := by
  decide

/-- C1 counterexample: a stored non-null non-zero price 3000 and an
incoming different price 0 produce zero price-change entries, where the
claim predicts exactly one. -/
theorem price_change_claim_fails_on_zero_new_price :
    ((3000 : Int) ≠ 0) ∧ ((0 : Int) ≠ 3000) ∧
    (save_properties [mkRow "a" (some 3000) 10 10 false]
        [mkRecord (some "a") (some 0) (some "A")] 500).1.price_changes = [] := by
  decide

end Yad2
namespace Yad2

lemma find?_map_id (f : PropRow → PropRow) (l : List PropRow) (pid : String)
    (hf : ∀ r, (f r).id = r.id) :
    (l.map f).find? (fun r => r.id == pid) = (l.find? (fun r => r.id == pid)).map f := by
  induction l with
  | nil => rfl
  | cons a t ih =>
      by_cases h : a.id = pid
      · rw [List.map_cons, List.find?_cons_of_pos _ (by simp [hf, h]),
            List.find?_cons_of_pos _ (by simp [h])]
        rfl
      · rw [List.map_cons, List.find?_cons_of_neg _ (by simp [hf, h]),
            List.find?_cons_of_neg _ (by simp [h]), ih]

lemma updateTable_find? (tbl : List PropRow) (pid : String) (p : InRecord) (now : Nat) :
    (updateTable tbl pid p now).find? (fun r => r.id == pid)
      = (tbl.find? (fun r => r.id == pid)).map (fun r => updateRow p now r) := by
  have hf : ∀ r : PropRow,
      ((fun r => if r.id == pid then updateRow p now r else r) r).id = r.id := by
    intro r
    by_cases h : (r.id == pid) = true <;> simp [h, updateRow]
  unfold updateTable
  rw [find?_map_id _ tbl pid hf]
  cases hfind : tbl.find? (fun r => r.id == pid) with
  | none => rfl
  | some ex =>
      have hex := List.find?_some hfind
      simp at hex
      simp [hex]

lemma priceChangeEntries_filter_self (pid : String) (ex : PropRow) (p : InRecord)
    (now : Nat) :
    (priceChangeEntries pid ex p now).filter (fun c => c.id == pid)
      = priceChangeEntries pid ex p now := by
  rcases hE : ex.price with _ | op
  · simp [priceChangeEntries, hE]
  · rcases hP : p.price with _ | np
    · simp [priceChangeEntries, hE, hP]
    · by_cases hc : op ≠ 0 ∧ np ≠ 0 ∧ op ≠ np
      · simp [priceChangeEntries, hE, hP, hc]
      · simp [priceChangeEntries, hE, hP, hc]

lemma mem_priceChangeEntries (pid : String) (ex : PropRow) (p : InRecord) (now : Nat)
    (c : PriceChange) (hc : c ∈ priceChangeEntries pid ex p now) :
    c.old_price ≠ 0 ∧ c.new_price ≠ 0 ∧ c.old_price ≠ c.new_price := by
  rcases hE : ex.price with _ | op
  · simp only [priceChangeEntries, hE] at hc
    exact absurd hc (List.not_mem_nil c)
  · rcases hP : p.price with _ | np
    · simp only [priceChangeEntries, hE, hP] at hc
      exact absurd hc (List.not_mem_nil c)
    · simp only [priceChangeEntries, hE, hP] at hc
      by_cases hcond : op ≠ 0 ∧ np ≠ 0 ∧ op ≠ np
      · rw [if_pos hcond] at hc
        have heq := List.mem_singleton.1 hc
        subst heq
        exact ⟨hcond.1, hcond.2.1, hcond.2.2⟩
      · rw [if_neg hcond] at hc
        exact absurd hc (List.not_mem_nil c)

lemma processOne_changes_cases (now : Nat) (st : LoopState) (p : InRecord)
    (c : PriceChange) (hc : c ∈ (processOne now st p).changes) :
    c ∈ st.changes ∨ (c.old_price ≠ 0 ∧ c.new_price ≠ 0 ∧ c.old_price ≠ c.new_price) := by
  rcases hq : p.id with _ | q
  · simp only [processOne, hq] at hc
    exact Or.inl hc
  · by_cases hq0 : q = ""
    · simp only [processOne, hq] at hc
      rw [if_pos hq0] at hc
      exact Or.inl hc
    · simp only [processOne, hq] at hc
      rw [if_neg hq0] at hc
      cases hfind : st.table.find? (fun r => r.id == q) with
      | some ex =>
          simp only [hfind] at hc
          rcases List.mem_append.1 hc with h | h
          · exact Or.inl h
          · exact Or.inr (mem_priceChangeEntries q ex p now c h)
      | none =>
          simp only [hfind] at hc
          exact Or.inl hc

lemma foldl_changes_cases (now : Nat) (props : List InRecord) (st : LoopState)
    (c : PriceChange) (hc : c ∈ (props.foldl (processOne now) st).changes) :
    c ∈ st.changes ∨ (c.old_price ≠ 0 ∧ c.new_price ≠ 0 ∧ c.old_price ≠ c.new_price) := by
  induction props generalizing st with
  | nil => exact Or.inl hc
  | cons p t ih =>
      rcases ih (processOne now st p) hc with h | h
      · exact processOne_changes_cases now st p c h
      · exact Or.inr h

lemma priceChangeEntries_same (pid : String) (ex : PropRow) (p : InRecord) (now : Nat)
    (h : ex.price = p.price) : priceChangeEntries pid ex p now = [] := by
  rcases hE : ex.price with _ | op
  · have hP : p.price = none := by rw [← h, hE]
    simp [priceChangeEntries, hE, hP]
  · have hP : p.price = some op := by rw [← h, hE]
    simp [priceChangeEntries, hE, hP]

lemma priceChangeEntries_map_prices (pid : String) (ex : PropRow) (p : InRecord)
    (now : Nat) :
    (priceChangeEntries pid ex p now).map (fun c => (c.old_price, c.new_price))
      = match ex.price, p.price with
        | some oldP, some newP =>
            if oldP ≠ 0 ∧ newP ≠ 0 ∧ oldP ≠ newP then [(oldP, newP)] else []
        | _, _ => [] := by
  rcases hE : ex.price with _ | op
  · simp [priceChangeEntries, hE]
  · rcases hP : p.price with _ | np
    · simp [priceChangeEntries, hE, hP]
    · by_cases hc : op ≠ 0 ∧ np ≠ 0 ∧ op ≠ np
      · simp [priceChangeEntries, hE, hP, hc]
      · simp [priceChangeEntries, hE, hP, hc]

lemma pidStep_chain_no_more (now : Nat) (pid : String) (priceP2 : Option Int)
    (records : List InRecord) (hall : ∀ p ∈ records, p.price = priceP2) :
    ∀ (row : PropRow) (cs : List PriceChange), row.price = priceP2 →
      (records.foldl (pidStep now pid) (some row, cs)).2 = cs := by
  induction records with
  | nil =>
      intro row cs hrow
      rfl
  | cons p t ih =>
      intro row cs hrow
      rw [List.foldl_cons]
      have hent : priceChangeEntries pid row p now = [] :=
        priceChangeEntries_same pid row p now (hrow.trans (hall p (by simp)).symm)
      show (t.foldl (pidStep now pid)
          (some (updateRow p now row), cs ++ priceChangeEntries pid row p now)).2 = cs
      rw [hent, List.append_nil]
      exact ih (fun q hq => hall q (by simp [hq])) (updateRow p now row) cs
        (show p.price = priceP2 from hall p (by simp))

lemma foldl_pid_track (now : Nat) (pid : String) (hpid : pid ≠ "")
    (props : List InRecord) (st : LoopState) :
    ((props.foldl (processOne now) st).table.find? (fun r => r.id == pid),
     (props.foldl (processOne now) st).changes.filter (fun c => c.id == pid))
      = (props.filter fun p => p.id == some pid).foldl (pidStep now pid)
          (st.table.find? (fun r => r.id == pid),
           st.changes.filter (fun c => c.id == pid)) := by
  induction props generalizing st with
  | nil => rfl
  | cons p t ih =>
      by_cases hp : (p.id == some pid) = true
      · have hpeq : p.id = some pid := by simpa using hp
        rw [List.foldl_cons,
            show (p :: t).filter (fun q => q.id == some pid)
              = p :: t.filter (fun q => q.id == some pid) by simp [List.filter_cons, hp],
            List.foldl_cons, ih (processOne now st p)]
        congr 1
        cases hfind : st.table.find? (fun r => r.id == pid) with
        | some ex =>
            simp only [processOne, hpeq, if_neg hpid, hfind, pidStep, Prod.mk.injEq]
            constructor
            · rw [updateTable_find? st.table pid p now, hfind]
              rfl
            · rw [List.filter_append, priceChangeEntries_filter_self]
        | none =>
            simp only [processOne, hpeq, if_neg hpid, hfind, pidStep, Prod.mk.injEq]
            constructor
            · rw [List.find?_append, hfind,
                  List.find?_cons_of_pos _ (by simp [insertRow])]
              rfl
            · trivial
      · have hpne2 : p.id ≠ some pid := by simpa using hp
        have hpne : ¬ (p.id = some pid ∧ pid ≠ "") := fun h => hpne2 h.1
        rw [List.foldl_cons,
            show (p :: t).filter (fun q => q.id == some pid)
              = t.filter (fun q => q.id == some pid) by simp [List.filter_cons, hp],
            ih (processOne now st p)]
        have hskip := processOne_find?_of_skip now st p pid hpne
        rw [hskip.1, hskip.2]

/-- C1 amended: first, over every store and every incoming batch, each
price-change entry `save_properties` records has a non-null, non-zero old
price and a non-null, non-zero new price that differ — so no entry is
ever recorded when the prior or the incoming price is null or zero, or
when the prices are equal.  Second, for every batch containing a given
identity whose records for that identity all carry price P2: if a row for
the identity is stored with prior price P1 and both P1 and P2 are
non-null and non-zero and P2 differs from P1, exactly one entry with old
price P1 and new price P2 is recorded; otherwise (P2 equal to P1, P1 or
P2 null or zero, or no prior row) zero entries are recorded for it. -/
theorem save_properties_price_change_iff :
    (∀ (tbl : List PropRow) (props : List InRecord) (now : Nat) (c : PriceChange),
        c ∈ (save_properties tbl props now).1.price_changes →
        c.old_price ≠ 0 ∧ c.new_price ≠ 0 ∧ c.old_price ≠ c.new_price) ∧
    (∀ (tbl : List PropRow) (props : List InRecord) (now : Nat) (pid : String)
        (priceP2 : Option Int),
        pid ≠ "" →
        (∃ p ∈ props, p.id = some pid) →
        (∀ p ∈ props, p.id = some pid → p.price = priceP2) →
        ((save_properties tbl props now).1.price_changes.filter
            (fun c => c.id == pid)).map (fun c => (c.old_price, c.new_price))
          = match tbl.find? (fun r => r.id == pid) with
            | some ex =>
                match ex.price, priceP2 with
                | some P1, some P2 =>
                    if P1 ≠ 0 ∧ P2 ≠ 0 ∧ P1 ≠ P2 then [(P1, P2)] else []
                | _, _ => []
            | none => []) := by
  constructor
  · intro tbl props now c hc
    rcases foldl_changes_cases now props
        ⟨refreshRemoved tbl (currentPropertyIds props) now, 0, 0, []⟩ c hc with h | h
    · exact absurd h (List.not_mem_nil c)
    · exact h
  · intro tbl props now pid priceP2 hpid hex hall
    obtain ⟨p0, hp0, hp0id⟩ := hex
    have hpidmem : pid ∈ currentPropertyIds props :=
      mem_currentPropertyIds.2 ⟨p0, hp0, hp0id, hpid⟩
    have h0 : (refreshRemoved tbl (currentPropertyIds props) now).find?
        (fun r => r.id == pid) = tbl.find? (fun r => r.id == pid) :=
      refreshRemoved_find?_of_mem tbl _ now pid hpidmem
    have htrack := foldl_pid_track now pid hpid props
      ⟨refreshRemoved tbl (currentPropertyIds props) now, 0, 0, []⟩
    have hchg : (save_properties tbl props now).1.price_changes.filter
        (fun c => c.id == pid)
        = ((props.filter fun q => q.id == some pid).foldl (pidStep now pid)
            (tbl.find? (fun r => r.id == pid), [])).2 := by
      have h2 := congrArg Prod.snd htrack
      simp only [List.filter_nil] at h2
      rw [h0] at h2
      exact h2
    rw [hchg]
    cases hfind : tbl.find? (fun r => r.id == pid) with
    | none =>
        cases hfilt : props.filter (fun q => q.id == some pid) with
        | nil =>
            exfalso
            have hin : p0 ∈ props.filter (fun q => q.id == some pid) :=
              List.mem_filter.2 ⟨hp0, by simp [hp0id]⟩
            rw [hfilt] at hin
            exact absurd hin (List.not_mem_nil p0)
        | cons rr rest =>
            have hrmem : rr ∈ props ∧ rr.id = some pid := by
              have hmem : rr ∈ props.filter (fun q => q.id == some pid) := by
                rw [hfilt]
                exact List.mem_cons_self rr rest
              have h3 := List.mem_filter.1 hmem
              exact ⟨h3.1, by simpa using h3.2⟩
            have hrP : rr.price = priceP2 := hall rr hrmem.1 hrmem.2
            have hrest : ∀ p ∈ rest, p.price = priceP2 := by
              intro p hp
              have hmem : p ∈ props.filter (fun q => q.id == some pid) := by
                rw [hfilt]
                exact List.mem_cons_of_mem rr hp
              have h3 := List.mem_filter.1 hmem
              exact hall p h3.1 (by simpa using h3.2)
            rw [List.foldl_cons]
            show ((rest.foldl (pidStep now pid)
                (some (insertRow pid rr now), [])).2).map
                (fun c => (c.old_price, c.new_price)) = _
            rw [pidStep_chain_no_more now pid priceP2 rest hrest (insertRow pid rr now) []
                (show rr.price = priceP2 from hrP)]
            rfl
    | some ex =>
        cases hfilt : props.filter (fun q => q.id == some pid) with
        | nil =>
            exfalso
            have hin : p0 ∈ props.filter (fun q => q.id == some pid) :=
              List.mem_filter.2 ⟨hp0, by simp [hp0id]⟩
            rw [hfilt] at hin
            exact absurd hin (List.not_mem_nil p0)
        | cons rr rest =>
            have hrmem : rr ∈ props ∧ rr.id = some pid := by
              have hmem : rr ∈ props.filter (fun q => q.id == some pid) := by
                rw [hfilt]
                exact List.mem_cons_self rr rest
              have h3 := List.mem_filter.1 hmem
              exact ⟨h3.1, by simpa using h3.2⟩
            have hrP : rr.price = priceP2 := hall rr hrmem.1 hrmem.2
            have hrest : ∀ p ∈ rest, p.price = priceP2 := by
              intro p hp
              have hmem : p ∈ props.filter (fun q => q.id == some pid) := by
                rw [hfilt]
                exact List.mem_cons_of_mem rr hp
              have h3 := List.mem_filter.1 hmem
              exact hall p h3.1 (by simpa using h3.2)
            rw [List.foldl_cons]
            show ((rest.foldl (pidStep now pid)
                (some (updateRow rr now ex),
                 [] ++ priceChangeEntries pid ex rr now)).2).map
                (fun c => (c.old_price, c.new_price)) = _
            rw [List.nil_append,
                pidStep_chain_no_more now pid priceP2 rest hrest (updateRow rr now ex)
                  (priceChangeEntries pid ex rr now)
                  (show rr.price = priceP2 from hrP)]
            rw [← hrP]
            exact priceChangeEntries_map_prices pid ex rr now

/-- C1 witness: concrete stored price 3000 and incoming 2800 give
exactly one entry with old price 3000 and new price 2800. -/
theorem save_properties_price_change_iff_witness :
    ("a" ≠ "") ∧
    (((save_properties [mkRow "a" (some 3000) 10 10 false]
        [mkRecord (some "a") (some 2800) (some "A")] 500).1.price_changes.filter
        (fun c => c.id == "a")).map (fun c => (c.old_price, c.new_price))
      = [((3000 : Int), (2800 : Int))]) := by
  refine ⟨by decide, ?_⟩
  have h := save_properties_price_change_iff.2
      [mkRow "a" (some 3000) 10 10 false]
      [mkRecord (some "a") (some 2800) (some "A")] 500 "a" (some 2800)
      (by decide)
      ⟨mkRecord (some "a") (some 2800) (some "A"), by simp, rfl⟩
      (by
        intro p hp hid
        simp at hp
        subst hp
        rfl)
  exact h.trans (by decide)

end Yad2
